import Mathlib

/-!
Verification development for the claude-max-api-proxy repository.

The definitions below are shallow embeddings of the TypeScript source:
  - credentials validity check (src/server/standalone.ts, isValid)
  - subprocess kill / timeout state machine (src/subprocess/manager.ts, ClaudeSubprocess)
  - message conversion (src/subprocess/manager.ts, convertMessages)
  - HTTP handlers for chat completions (src/subprocess/manager.ts)
  - streaming translator (handleStreamingResponse onChunk / onDone together
    with the SSE event loop of callAnthropicStream in the anthropic client)
  - upstream request body construction (anthropic client, buildBody)
  - subprocess line-protocol reader (ClaudeSubprocess.processBuffer and the
    stdout data handler)

Machine integers of the source are modelled as Nat / Int; JavaScript
truthiness of numbers and strings is modelled explicitly where the code
relies on it (a zero number and the empty string are falsy).
-/

/-! ## Credentials (src/server/standalone.ts lines 78-81 and 166-173) -/

/-- Credentials record: an opaque access token plus an optional expiry
instant in milliseconds since the epoch. -/
structure Credentials where
  accessToken : String
  expiresAt : Option Int
deriving DecidableEq

/-- Embedding of isValid from src/server/standalone.ts lines 166-173.
The JavaScript guard is a truthiness test: not expiresAt is true both when
the field is absent (undefined) and when it is the number 0, so both cases
return true without consulting the clock.  Otherwise the code returns
expiresAt > Date.now() + 5 * 60 * 1000.  Date.now() is the explicit
parameter now. -/
def isValid (creds : Credentials) (now : Int) : Bool :=
  match creds.expiresAt with
  | none => true
  | some e => if e = 0 then true else decide (e > now + 5 * 60 * 1000)

/-! ## Subprocess kill and timeout (src/subprocess/manager.ts lines 26-50, 119-133) -/

/-- Handle of the spawned child process.  The field delivered records the
signals actually delivered to the operating-system process; Node delivers
no signal through ChildProcess.kill once the process has exited. -/
structure ProcHandle where
  exited : Bool
  delivered : List String
deriving DecidableEq

/-- Model of Node ChildProcess.kill: delivers the signal only if the
process has not exited yet. -/
def procKill (p : ProcHandle) (sig : String) : ProcHandle :=
  if p.exited then p else ⟨p.exited, p.delivered ++ [sig]⟩

/-- State of a ClaudeSubprocess instance: the private fields process,
timeoutId and isKilled of the class (src/subprocess/manager.ts lines
26-30). -/
structure Subproc where
  process : Option ProcHandle
  timeoutId : Option Nat
  isKilled : Bool
deriving DecidableEq

/-- Embedding of the private clearTimeout method (lines 119-121). -/
def clearTimeoutS (s : Subproc) : Subproc :=
  match s.timeoutId with
  | some _ => ⟨s.process, none, s.isKilled⟩
  | none => s

/-- Embedding of ClaudeSubprocess.kill (lines 123-129): only when the
instance is not yet marked killed and a process exists does it mark the
instance killed, clear the timeout and signal the process. -/
def kill (s : Subproc) (sig : String) : Subproc :=
  if s.isKilled = false ∧ s.process.isSome then
    let s1 := clearTimeoutS ⟨s.process, s.timeoutId, true⟩
    ⟨s1.process.map (fun p => procKill p sig), s1.timeoutId, s1.isKilled⟩
  else s

/-- Embedding of the timeout callback installed in start (lines 44-50):
when the instance is not yet killed it marks it killed and sends SIGTERM
through the optional-chained process handle (and emits a timeout error,
not modelled here). -/
def timeoutFire (s : Subproc) : Subproc :=
  if s.isKilled = false then
    ⟨s.process.map (fun p => procKill p "SIGTERM"), s.timeoutId, true⟩
  else s

/-- Signals delivered so far to the underlying OS process of an instance. -/
def deliveredSignals (s : Subproc) : List String :=
  match s.process with
  | some p => p.delivered
  | none => []

/-- Whether the underlying process, if any, has already exited. -/
def processExited (s : Subproc) : Bool :=
  match s.process with
  | some p => p.exited
  | none => true

/-! ## Message conversion (src/subprocess/manager.ts lines 181-206) -/

/-- Role of an inbound OpenAI-dialect message.  Roles other than system,
user and assistant are silently dropped by the conversion loop. -/
inductive InRole where
  | system
  | user
  | assistant
  | otherRole
deriving DecidableEq

/-- Inbound OpenAI-dialect message. -/
structure InMsg where
  role : InRole
  content : String
deriving DecidableEq

/-- Role of an Anthropic-dialect message. -/
inductive ARole where
  | user
  | assistant
deriving DecidableEq

/-- Anthropic-dialect message. -/
structure AMsg where
  role : ARole
  content : String
deriving DecidableEq

/-- The for-loop of convertMessages (lines 188-198): accumulates the
system field (joined with a blank-line separator in encounter order) and
pushes user and assistant turns in order. -/
def convertGo (sys : Option String) (acc : List AMsg) : List InMsg → Option String × List AMsg
  | [] => (sys, acc)
  | m :: ms =>
    match m.role with
    | InRole.system =>
        let sys1 := match sys with
          | none => some m.content
          | some s => some (s ++ "\n\n" ++ m.content)
        convertGo sys1 acc ms
    | InRole.user => convertGo sys (acc ++ [⟨ARole.user, m.content⟩]) ms
    | InRole.assistant => convertGo sys (acc ++ [⟨ARole.assistant, m.content⟩]) ms
    | InRole.otherRole => convertGo sys acc ms

/-- The fix-up at lines 201-203: if the converted list is non-empty and
starts with an assistant turn, a synthetic leading user turn with content
"(continue)" is unshifted. -/
def fixLeading : List AMsg → List AMsg
  | [] => []
  | a :: rest =>
      if a.role = ARole.assistant then ⟨ARole.user, "(continue)"⟩ :: a :: rest
      else a :: rest

/-- Embedding of convertMessages (lines 181-206): runs the loop, then
applies the leading-assistant fix-up to the converted turns. -/
def convertMessages (messages : List InMsg) : Option String × List AMsg :=
  match convertGo none [] messages with
  | (sys, turns) => (sys, fixLeading turns)

/-! ## Streaming translator (src/subprocess/manager.ts lines 260-335 and the
SSE event loop of callAnthropicStream in the anthropic client, lines 189-221) -/

/-- State owned by handleStreamingResponse across onChunk calls: the
isFirst flag and the accumulated fullText (lines 277-278). -/
structure ChunkState where
  isFirst : Bool
  fullText : String
deriving DecidableEq

/-- One downstream SSE frame written by the streaming handler.  comment is
the initial ":ok" comment; roleChunk is the chunk whose delta carries only
role assistant; contentChunk carries a delta with a content field;
finishChunk is the final chunk with finish_reason stop; doneMark is the
literal [DONE] frame; errorEvent is the in-band error frame of the catch
block. -/
inductive DownEvent where
  | comment
  | roleChunk
  | contentChunk (text : String)
  | finishChunk
  | doneMark
  | errorEvent (msg : String)
deriving DecidableEq

/-- Embedding of the onChunk callback (lines 284-307): appends the text to
fullText, writes the role chunk first if this is the first chunk, then
always writes a content chunk carrying exactly the delta text. -/
def onChunk (st : ChunkState) (text : String) : ChunkState × List DownEvent :=
  let st1 : ChunkState := ⟨false, st.fullText ++ text⟩
  if st.isFirst then (st1, [DownEvent.roleChunk, DownEvent.contentChunk text])
  else (st1, [DownEvent.contentChunk text])

/-- Delivering a list of delta texts to the onChunk callback in order,
threading the handler state and concatenating the written frames. -/
def runDeltas (st : ChunkState) : List String → ChunkState × List DownEvent
  | [] => (st, [])
  | d :: ds =>
    let r := onChunk st d
    let r2 := runDeltas r.1 ds
    (r2.1, r.2 ++ r2.2)

/-- Initial handler state (lines 277-278): isFirst true, empty fullText. -/
def initChunkState : ChunkState := ⟨true, ""⟩

/-- The frames written for one streaming request whose delivered delta
texts are ds: the onChunk frames followed by the onDone frames (finish
chunk and [DONE], lines 309-322). -/
def translateDeltas (ds : List String) : List DownEvent :=
  (runDeltas initChunkState ds).2 ++ [DownEvent.finishChunk, DownEvent.doneMark]

/-- The content fields of the content chunks of a frame list, in order. -/
def contentTexts (evs : List DownEvent) : List String :=
  evs.filterMap fun e =>
    match e with
    | DownEvent.contentChunk t => some t
    | _ => none

/-- Upstream SSE event as decoded by the event loop of
callAnthropicStream (client lines 202-213).  Optional fields model absent
JSON fields. -/
inductive UpEvent where
  | messageStart (model : Option String) (inputTokens : Option Nat)
  | contentBlockDelta (text : Option String)
  | messageDelta (outputTokens : Option Nat)
  | otherEvent
deriving DecidableEq

/-- Per-request state of the callAnthropicStream loop combined with the
handler state: resolved model name and token counters (client lines
185-187) plus the ChunkState of the downstream handler. -/
structure StreamState where
  chunk : ChunkState
  model : String
  inputTokens : Nat
  outputTokens : Nat
deriving DecidableEq

/-- JavaScript or-default on an optional string: the empty string is
falsy, so it also falls back to the default. -/
def jsOrString (o : Option String) (d : String) : String :=
  match o with
  | some s => if s = "" then d else s
  | none => d

/-- One iteration of the event dispatch in callAnthropicStream (client
lines 205-213): message_start updates model and input token count,
content_block_delta delivers a truthy (present, non-empty) text to
onChunk, message_delta updates the output token count, anything else is
ignored. -/
def stepUp (st : StreamState) : UpEvent → StreamState × List DownEvent
  | UpEvent.messageStart m it =>
      (⟨st.chunk, jsOrString m st.model, it.getD 0, st.outputTokens⟩, [])
  | UpEvent.contentBlockDelta t =>
      match t with
      | some s =>
          if s = "" then (st, [])
          else
            let r := onChunk st.chunk s
            (⟨r.1, st.model, st.inputTokens, st.outputTokens⟩, r.2)
      | none => (st, [])
  | UpEvent.messageDelta ot =>
      (⟨st.chunk, st.model, st.inputTokens, ot.getD 0⟩, [])
  | UpEvent.otherEvent => (st, [])

/-- Processing a whole upstream event sequence through the loop. -/
def runUp (st : StreamState) : List UpEvent → StreamState × List DownEvent
  | [] => (st, [])
  | e :: es =>
    let r := stepUp st e
    let r2 := runUp r.1 es
    (r2.1, r.2 ++ r2.2)

/-- Initial stream state for a request with the given model name. -/
def initStreamState (model : String) : StreamState :=
  ⟨initChunkState, model, 0, 0⟩

/-- All frames written downstream for one streaming request that processes
the upstream events evs to completion: the loop frames followed by the
onDone frames. -/
def translateStream (model : String) (evs : List UpEvent) : List DownEvent :=
  (runUp (initStreamState model) evs).2 ++ [DownEvent.finishChunk, DownEvent.doneMark]

/-- The delta texts actually delivered to onChunk by the loop: texts of
content_block_delta events that are present and non-empty. -/
def deliveredTexts (evs : List UpEvent) : List String :=
  evs.filterMap fun e =>
    match e with
    | UpEvent.contentBlockDelta (some s) => if s = "" then none else some s
    | _ => none

/-- Recognizer for the role-announcement frame. -/
def isRoleChunk : DownEvent → Bool
  | DownEvent.roleChunk => true
  | _ => false

/-- Recognizer for content frames. -/
def isContentChunk : DownEvent → Bool
  | DownEvent.contentChunk _ => true
  | _ => false

/-! ## HTTP handlers (src/subprocess/manager.ts lines 211-390) -/

/-- Error envelope sent as a JSON body: message, type and code fields.
The JSON field name of etype is type. -/
structure ErrBody where
  message : String
  etype : String
  code : Option String
deriving DecidableEq

/-- One content block of a non-streaming Anthropic response: a type tag
and a text (only blocks whose tag is "text" contribute content). -/
structure CBlock where
  btype : String
  btext : String
deriving DecidableEq

/-- Non-streaming Anthropic response as consumed by
handleNonStreamingResponse. -/
structure AnthropicResponse where
  respModel : String
  content : List CBlock
  inputTokens : Nat
  outputTokens : Nat
deriving DecidableEq

/-- Chat-completion JSON body returned by the non-streaming handler. -/
structure Completion where
  model : String
  contentText : String
  promptTokens : Nat
  completionTokens : Nat
  totalTokens : Nat
deriving DecidableEq

/-- JSON body of a non-stream response: either an error envelope or a
chat-completion object. -/
inductive RespBody where
  | errorB (e : ErrBody)
  | completionB (c : Completion)
deriving DecidableEq

/-- Observable state of the Express response object res: HTTP status,
whether headers were flushed, the SSE frames written so far, whether the
stream was ended, the JSON body if a non-stream response was sent, and a
counter of upstream API calls made while serving it. -/
structure Res where
  status : Nat
  headersSent : Bool
  frames : List DownEvent
  ended : Bool
  jsonBody : Option RespBody
  upstreamCalls : Nat
deriving DecidableEq

/-- A fresh response object: status 200, nothing sent. -/
def Res.fresh : Res := ⟨200, false, [], false, none, 0⟩

/-- Outcome of callAnthropicStream as observed by the streaming handler:
either it throws before delivering any chunk (credential failure, network
failure or a non-success upstream status, client lines 162-176), or it
streams the upstream events to completion and invokes onDone. -/
inductive UpstreamResult where
  | transportError (msg : String)
  | stream (evs : List UpEvent)
deriving DecidableEq

/-- Outcome of the non-streaming callAnthropic. -/
inductive NonStreamResult where
  | err (msg : String)
  | ok (resp : AnthropicResponse)
deriving DecidableEq

/-- Embedding of handleStreamingResponse (lines 260-335): it first sets
the SSE headers and flushes them (status stays 200) and writes the ":ok"
comment, so bytes are on the wire before the upstream call is made.  On a
successful stream it writes the translated frames and ends; when
callAnthropicStream throws, the catch block writes one in-band error frame
and ends the stream if it is not already ended, never touching the
status. -/
def handleStreamingResponse (model : String) (up : UpstreamResult) : Res :=
  let r0 : Res := ⟨200, true, [DownEvent.comment], false, none, 1⟩
  match up with
  | UpstreamResult.transportError msg =>
      if r0.ended = false then
        ⟨r0.status, r0.headersSent, r0.frames ++ [DownEvent.errorEvent msg], true,
          r0.jsonBody, r0.upstreamCalls⟩
      else r0
  | UpstreamResult.stream evs =>
      ⟨r0.status, r0.headersSent, r0.frames ++ translateStream model evs, true,
        r0.jsonBody, r0.upstreamCalls⟩

/-- Embedding of handleNonStreamingResponse (lines 340-390): on success,
responds with a completion whose content is the joined text of the
text-typed blocks and whose usage totals the token counts; on failure,
responds 500 with a server error envelope. -/
def handleNonStreamingResponse (up : NonStreamResult) : Res :=
  match up with
  | NonStreamResult.ok resp =>
      let content := String.join ((resp.content.filter (fun c => c.btype = "text")).map CBlock.btext)
      ⟨200, true, [], true,
        some (RespBody.completionB
          ⟨resp.respModel, content, resp.inputTokens, resp.outputTokens,
            resp.inputTokens + resp.outputTokens⟩), 1⟩
  | NonStreamResult.err msg =>
      ⟨500, true, [], true,
        some (RespBody.errorB ⟨msg, "server_error", none⟩), 1⟩

/-- The messages field of an inbound request body, which may be absent,
present but not an array, or an array of messages. -/
inductive MessagesField where
  | absent
  | notArray
  | array (l : List InMsg)
deriving DecidableEq

/-- Inbound OpenAI-dialect chat request body.  The maxTokens field (JSON
name max_tokens) is carried by the wire format but never read by the
handlers. -/
structure OpenAIChatRequest where
  model : String
  messages : MessagesField
  stream : Bool
  maxTokens : Option Nat
deriving DecidableEq

/-- The validation guard of handleChatCompletions (line 223): the request
is rejected when messages is missing, not an array, or an empty array. -/
def validMessages : MessagesField → Option (List InMsg)
  | MessagesField.array (m :: ms) => some (m :: ms)
  | _ => none

/-- Embedding of handleChatCompletions (lines 211-255): validates the
messages field, answering 400 with code invalid_messages and making no
upstream call when it is invalid; otherwise converts the messages and
dispatches on the stream flag.  The upstream outcome for whichever path
is taken is supplied as a parameter. -/
def handleChatCompletions (body : OpenAIChatRequest) (upS : UpstreamResult)
    (upN : NonStreamResult) : Res :=
  match validMessages body.messages with
  | none =>
      ⟨400, true, [], true,
        some (RespBody.errorB
          ⟨"messages is required and must be a non-empty array",
            "invalid_request_error", some "invalid_messages"⟩), 0⟩
  | some _ =>
      if body.stream then handleStreamingResponse body.model upS
      else handleNonStreamingResponse upN

/-- Embedding of the catch block of handleChatCompletions (lines 241-254):
when an error escapes and the response headers have not been sent, it
responds 500 with a server error envelope; once headers are sent it leaves
the response alone. -/
def catchTopLevel (r : Res) (msg : String) : Res :=
  if r.headersSent = false then
    ⟨500, r.headersSent, r.frames, r.ended,
      some (RespBody.errorB ⟨msg, "server_error", none⟩), r.upstreamCalls⟩
  else r

/-- The error code of the JSON error body of a response, when there is
one. -/
def Res.errorCode (r : Res) : Option (Option String) :=
  match r.jsonBody with
  | some (RespBody.errorB e) => some e.code
  | _ => none

/-! ## Upstream request body construction (anthropic client lines 52-130,
src/subprocess/manager.ts lines 281-282 and 347-348) -/

/-- Internal Anthropic request record (client lines 31-37). -/
structure AnthropicRequest where
  model : String
  messages : List AMsg
  maxTokens : Nat
  system : Option String
deriving DecidableEq

/-- The request built by handleStreamingResponse at line 282: max_tokens
is the literal 8192. -/
def mkStreamReq (model : String) (system : Option String) (messages : List AMsg) :
    AnthropicRequest :=
  ⟨model, messages, 8192, system⟩

/-- The request built by handleNonStreamingResponse at line 348:
max_tokens is the literal 8192. -/
def mkNonStreamReq (model : String) (system : Option String) (messages : List AMsg) :
    AnthropicRequest :=
  ⟨model, messages, 8192, system⟩

/-- Whether the first char list occurs at the start of the second. -/
def startsWithSeq : List Char → List Char → Bool
  | [], _ => true
  | _ :: _, [] => false
  | a :: as, b :: bs => a = b && startsWithSeq as bs

/-- Whether the first char list occurs contiguously anywhere in the
second: the model of the JavaScript String.includes test. -/
def containsSeq (pat : List Char) : List Char → Bool
  | [] => decide (pat = [])
  | c :: cs => startsWithSeq pat (c :: cs) || containsSeq pat cs

/-- Embedding of isOAuthToken (client lines 22-24): substring test for
sk-ant-oat. -/
def isOAuthToken (token : String) : Bool :=
  containsSeq "sk-ant-oat".data token.data

/-- Embedding of resolveModel and MODEL_MAP (client lines 52-64). -/
def resolveModel (model : String) : String :=
  if model = "claude-opus-4" then "claude-opus-4-20250514"
  else if model = "claude-sonnet-4" then "claude-sonnet-4-20250514"
  else if model = "claude-haiku-4" then "claude-haiku-4-20250514"
  else if model = "opus" then "claude-opus-4-20250514"
  else if model = "sonnet" then "claude-sonnet-4-20250514"
  else if model = "haiku" then "claude-haiku-4-20250514"
  else model

/-- System field of the upstream wire body: absent, a plain string, or a
list of text blocks (each block also carries the constant type "text" and
an ephemeral cache_control marker, not modelled as they never vary). -/
inductive SystemField where
  | absent
  | plain (s : String)
  | blocks (texts : List String)
deriving DecidableEq

/-- Upstream wire body produced by buildBody. -/
structure UpstreamBody where
  model : String
  messages : List AMsg
  maxTokens : Nat
  system : SystemField
deriving DecidableEq

/-- Embedding of buildBody (client lines 109-130): resolves the model,
defaults a falsy (zero) max_tokens to 8192, and shapes the system field;
for OAuth tokens a fixed identity preamble block is prepended. -/
def buildBody (request : AnthropicRequest) (token : String) : UpstreamBody :=
  let mt := if request.maxTokens = 0 then 8192 else request.maxTokens
  let sys :=
    if isOAuthToken token then
      SystemField.blocks
        (["You are Claude Code, Anthropic\x27s official CLI for Claude."] ++
          (match request.system with
           | some s => [s]
           | none => []))
    else
      match request.system with
      | some s => SystemField.plain s
      | none => SystemField.absent
  ⟨resolveModel request.model, request.messages, mt, sys⟩

/-- The message list a request body carries when its messages field is an
array. -/
def requestMessages (body : OpenAIChatRequest) : List InMsg :=
  match body.messages with
  | MessagesField.array l => l
  | _ => []

/-- The upstream wire body produced for an accepted streaming request:
convertMessages feeds mkStreamReq which feeds buildBody. -/
def upstreamStreamBody (body : OpenAIChatRequest) (token : String) : UpstreamBody :=
  let c := convertMessages (requestMessages body)
  buildBody (mkStreamReq body.model c.1 c.2) token

/-- The upstream wire body produced for an accepted non-streaming
request. -/
def upstreamNonStreamBody (body : OpenAIChatRequest) (token : String) : UpstreamBody :=
  let c := convertMessages (requestMessages body)
  buildBody (mkNonStreamReq body.model c.1 c.2) token

/-! ## Subprocess line-protocol reader (src/subprocess/manager.ts lines
63-77 and 102-117)

The JSON.parse call and the shape classifiers isContentDelta,
isAssistantMessage and isResultMessage live outside this repository slice
(JSON.parse is a platform function; the classifiers are declared in
src/types/claude-cli.ts, which is not part of the sources).  They are
taken as parameters: decode returns some parsed message or none on a
decode failure, and the three Boolean classifiers drive the dispatch
exactly as the source lines 112-114 do.  The chunk text reaching the
handler is the text after stripAnsi, which is applied per chunk before
the buffer is touched. -/

/-- An event emitted by ClaudeSubprocess while draining its buffer:
message fires for every decoded line, followed by at most one classified
event; raw fires for a line that fails to decode and carries the trimmed
line text. -/
inductive SubEvent (α : Type) where
  | message (m : α)
  | contentDelta (m : α)
  | assistant (m : α)
  | result (m : α)
  | raw (text : List Char)
deriving DecidableEq

/-- Whitespace test backing the JavaScript String.trim model. -/
def isWSChar (c : Char) : Bool := c.isWhitespace

/-- Model of JavaScript String.trim on a char list: strip leading and
trailing whitespace. -/
def trimChars (l : List Char) : List Char :=
  ((l.dropWhile isWSChar).reverse.dropWhile isWSChar).reverse

/-- Model of JavaScript String.split with separator newline: always a
non-empty list of newline-free fragments. -/
def splitNl : List Char → List (List Char)
  | [] => [[]]
  | c :: cs =>
    if c = '\n' then [] :: splitNl cs
    else
      match splitNl cs with
      | [] => [[c]]
      | l :: ls => (c :: l) :: ls

/-- Processing of one complete line (lines 106-116): trim, skip a line
that trims to nothing, otherwise decode; success emits message plus the
first matching classified event, failure emits one raw event carrying the
trimmed text. -/
def processLine {α : Type} (decode : List Char → Option α)
    (pCD pAM pRM : α → Bool) (line : List Char) : List (SubEvent α) :=
  let t := trimChars line
  if t = [] then []
  else
    match decode t with
    | some m =>
        SubEvent.message m ::
          (if pCD m then [SubEvent.contentDelta m]
           else if pAM m then [SubEvent.assistant m]
           else if pRM m then [SubEvent.result m]
           else [])
    | none => [SubEvent.raw t]

/-- Processing of a list of complete lines in order. -/
def processLines {α : Type} (decode : List Char → Option α)
    (pCD pAM pRM : α → Bool) : List (List Char) → List (SubEvent α)
  | [] => []
  | l :: ls =>
    processLine decode pCD pAM pRM l ++ processLines decode pCD pAM pRM ls

/-- Embedding of processBuffer (lines 102-117): split the buffer on
newline, keep the final (possibly partial) fragment as the new buffer and
process every earlier line.  Returns the new buffer and the emitted
events. -/
def processBuffer {α : Type} (decode : List Char → Option α)
    (pCD pAM pRM : α → Bool) (buf : List Char) : List Char × List (SubEvent α) :=
  let lines := splitNl buf
  (lines.getLastD [], processLines decode pCD pAM pRM lines.dropLast)

/-- Embedding of the stdout data handler (lines 63-69) on the
post-stripAnsi chunk text: a chunk that trims to nothing is ignored,
otherwise it is appended to the buffer, which is then drained. -/
def feedChunk {α : Type} (decode : List Char → Option α)
    (pCD pAM pRM : α → Bool) (buf data : List Char) :
    List Char × List (SubEvent α) :=
  if data.all isWSChar then (buf, [])
  else processBuffer decode pCD pAM pRM (buf ++ data)

/-- Feeding a sequence of chunks through the data handler, threading the
buffer and concatenating the events in order. -/
def feedChunks {α : Type} (decode : List Char → Option α)
    (pCD pAM pRM : α → Bool) (buf : List Char) :
    List (List Char) → List Char × List (SubEvent α)
  | [] => (buf, [])
  | d :: ds =>
    let r := feedChunk decode pCD pAM pRM buf d
    let r2 := feedChunks decode pCD pAM pRM r.1 ds
    (r2.1, r.2 ++ r2.2)

/-- Embedding of the close handler drain (line 75): when the remaining
buffer trims to something, processBuffer runs one last time. -/
def closeFlush {α : Type} (decode : List Char → Option α)
    (pCD pAM pRM : α → Bool) (buf : List Char) : List (SubEvent α) :=
  if trimChars buf = [] then []
  else (processBuffer decode pCD pAM pRM buf).2

/-- The full event sequence produced for a payload delivered as the given
chunks: feed every chunk, then drain the remaining buffer at process
exit. -/
def runPayload {α : Type} (decode : List Char → Option α)
    (pCD pAM pRM : α → Bool) (chunks : List (List Char)) : List (SubEvent α) :=
  let r := feedChunks decode pCD pAM pRM [] chunks
  r.2 ++ closeFlush decode pCD pAM pRM r.1

/-- Toy decoder for instantiating the parametric reader on concrete
inputs: it rejects every line, as JSON.parse does on non-JSON text. -/
def decodeNone : List Char → Option Unit := fun _ => none

/-- Toy classifier that matches nothing. -/
def classifyNone : Unit → Bool := fun _ => false

/-! ## Theorems -/

theorem contentTexts_append (a b : List DownEvent) :
    contentTexts (a ++ b) = contentTexts a ++ contentTexts b := by
  simp [contentTexts]

theorem contentTexts_runDeltas (ds : List String) :
    ∀ st : ChunkState, contentTexts (runDeltas st ds).2 = ds := by
  induction ds with
  | nil => intro st; simp [runDeltas, contentTexts]
  | cons d ds ih =>
    intro st
    simp only [runDeltas]
    rw [contentTexts_append, ih]
    cases h : st.isFirst <;> simp [onChunk, h, contentTexts]

/-- Claim C1: for every sequence of delta texts delivered to the
streaming translator, the content fields of the emitted content chunks
are exactly that sequence, so their concatenation equals the
concatenation of the deltas with no drop, duplication or reordering. -/
theorem streamed_content_concat (ds : List String) :
    contentTexts (translateDeltas ds) = ds ∧
    String.join (contentTexts (translateDeltas ds)) = String.join ds := by
  have h : contentTexts (translateDeltas ds) = ds := by
    unfold translateDeltas
    rw [contentTexts_append, contentTexts_runDeltas]
    simp [contentTexts]
  exact ⟨h, by rw [h]⟩

theorem fixLeading_head_not_assistant (l : List AMsg) (m : AMsg)
    (hm : (fixLeading l).head? = some m) : m.role ≠ ARole.assistant := by
  cases l with
  | nil => simp [fixLeading] at hm
  | cons a rest =>
    by_cases ha : a.role = ARole.assistant
    · simp only [fixLeading, ha, if_pos rfl] at hm
      simp at hm
      subst hm
      decide
    · simp [fixLeading, ha] at hm
      subst hm
      exact ha

/-- Claim C3: after conversion, a non-empty inbound message list never
yields a turn sequence whose first turn is an assistant turn. -/
theorem leading_turn_invariant (msgs : List InMsg) (_hne : msgs ≠ [])
    (m : AMsg) (hm : (convertMessages msgs).2.head? = some m) :
    m.role ≠ ARole.assistant := by
  apply fixLeading_head_not_assistant (convertGo none [] msgs).2 m
  rw [← hm]
  unfold convertMessages
  rfl

theorem leading_turn_invariant_witness :
    (⟨ARole.user, "(continue)"⟩ : AMsg).role ≠ ARole.assistant :=
  leading_turn_invariant [⟨InRole.assistant, "x"⟩] (by decide)
    ⟨ARole.user, "(continue)"⟩ (by rfl)

/-- Counterexample to claim C7 as stated: with a present expiry equal to
0 the code returns true, although the current time plus the 5-minute
margin is not strictly below 0. -/
theorem credential_validity_counterexample :
    isValid ⟨"tok", some 0⟩ 0 = true ∧ ¬ ((0 : Int) + 5 * 60 * 1000 < 0) := by
  decide

/-- Claim C7 amended: the validity check returns true when expiresAt is
absent or when it is the falsy number 0; for a present non-zero expiry it
returns true exactly when now plus the 5-minute margin is strictly below
the expiry. -/
theorem credential_validity_amended (creds : Credentials) (now : Int) :
    (creds.expiresAt = none → isValid creds now = true) ∧
    (creds.expiresAt = some 0 → isValid creds now = true) ∧
    (∀ e : Int, creds.expiresAt = some e → e ≠ 0 →
      (isValid creds now = true ↔ now + 5 * 60 * 1000 < e)) := by
  refine ⟨?_, ?_, ?_⟩
  · intro h; simp [isValid, h]
  · intro h; simp [isValid, h]
  · intro e he hne
    simp [isValid, he, hne]

theorem credential_validity_amended_witness :
    isValid ⟨"tok", some 1000000000⟩ 0 = true :=
  ((credential_validity_amended ⟨"tok", some 1000000000⟩ 0).2.2 1000000000
    rfl (by decide)).mpr (by decide)

/-- Claim C9: kill is idempotent.  A second kill after any first kill
call leaves the state unchanged; a kill after the timeout has fired
leaves the state unchanged; and a kill issued when the underlying process
has already exited delivers no further signal. -/
theorem kill_idempotent (s : Subproc) (sig1 sig2 sig3 : String) :
    kill (kill s sig1) sig2 = kill s sig1 ∧
    kill (timeoutFire s) sig3 = timeoutFire s ∧
    (processExited s = true → deliveredSignals (kill s sig1) = deliveredSignals s) := by
  obtain ⟨proc, tid, killed⟩ := s
  refine ⟨?_, ?_, ?_⟩
  · rcases proc with _ | ⟨ex, del⟩ <;> cases killed <;> rcases tid with _ | t <;>
      simp [kill, clearTimeoutS, procKill]
  · rcases proc with _ | ⟨ex, del⟩ <;> cases killed <;> rcases tid with _ | t <;>
      simp [kill, timeoutFire, clearTimeoutS, procKill]
  · intro hex
    rcases proc with _ | ⟨ex, del⟩ <;> cases killed <;> rcases tid with _ | t <;>
      simp_all [kill, clearTimeoutS, procKill, deliveredSignals, processExited]

theorem kill_idempotent_witness :
    deliveredSignals (kill ⟨some ⟨true, []⟩, none, false⟩ "SIGTERM") =
      deliveredSignals ⟨some ⟨true, []⟩, none, false⟩ :=
  (kill_idempotent ⟨some ⟨true, []⟩, none, false⟩ "SIGTERM" "SIGKILL" "SIGTERM").2.2 rfl

/-- Claim C8: a request whose messages field is missing, not an array or
an empty array is answered 400 with error code invalid_messages, and no
upstream call is made. -/
theorem invalid_messages_rejected (body : OpenAIChatRequest)
    (upS : UpstreamResult) (upN : NonStreamResult)
    (h : validMessages body.messages = none) :
    (handleChatCompletions body upS upN).status = 400 ∧
    (handleChatCompletions body upS upN).errorCode = some (some "invalid_messages") ∧
    (handleChatCompletions body upS upN).upstreamCalls = 0 := by
  simp [handleChatCompletions, h, Res.errorCode]

theorem invalid_messages_rejected_witness :
    (handleChatCompletions ⟨"m", MessagesField.array [], false, none⟩
      (UpstreamResult.stream []) (NonStreamResult.err "e")).status = 400 :=
  (invalid_messages_rejected ⟨"m", MessagesField.array [], false, none⟩
    (UpstreamResult.stream []) (NonStreamResult.err "e") rfl).1

/-- Claim C10: the upstream body built for an accepted request has
max_tokens 8192, and changing the max_tokens supplied by the client
changes nothing in the upstream body. -/
theorem max_tokens_fixed (body : OpenAIChatRequest) (token : String) (x : Option Nat)
    (h : (validMessages body.messages).isSome = true) :
    (upstreamStreamBody body token).maxTokens = 8192 ∧
    (upstreamNonStreamBody body token).maxTokens = 8192 ∧
    upstreamStreamBody ⟨body.model, body.messages, body.stream, x⟩ token =
      upstreamStreamBody body token ∧
    upstreamNonStreamBody ⟨body.model, body.messages, body.stream, x⟩ token =
      upstreamNonStreamBody body token := by
  obtain ⟨mo, ms, st, mt⟩ := body
  refine ⟨?_, ?_, rfl, rfl⟩ <;>
    simp [upstreamStreamBody, upstreamNonStreamBody, buildBody, mkStreamReq, mkNonStreamReq]

theorem max_tokens_fixed_witness :
    (upstreamStreamBody ⟨"opus", MessagesField.array [⟨InRole.user, "Hi"⟩], true, some 5⟩
      "tok").maxTokens = 8192 :=
  (max_tokens_fixed ⟨"opus", MessagesField.array [⟨InRole.user, "Hi"⟩], true, some 5⟩
    "tok" none rfl).1

/-- Claim C4: on a transport-level failure of a streaming request the
streaming handler has already written bytes (the headers and the ":ok"
comment precede the upstream call), so the failure is delivered in-band:
exactly one error frame is written after the comment, the stream is
ended, the status stays 200 and no JSON error body is produced; and in
the complementary branch of the top-level catch, a failure observed while
no headers have been sent yields a normal 500 error response. -/
theorem streaming_transport_failure (model msg : String) (r : Res)
    (h : r.headersSent = false) :
    (handleStreamingResponse model (UpstreamResult.transportError msg)).frames
        = [DownEvent.comment, DownEvent.errorEvent msg] ∧
    (handleStreamingResponse model (UpstreamResult.transportError msg)).ended = true ∧
    (handleStreamingResponse model (UpstreamResult.transportError msg)).status = 200 ∧
    (handleStreamingResponse model (UpstreamResult.transportError msg)).jsonBody = none ∧
    (catchTopLevel r msg).status = 500 ∧
    (catchTopLevel r msg).jsonBody = some (RespBody.errorB ⟨msg, "server_error", none⟩) := by
  refine ⟨?_, ?_, ?_, ?_, ?_, ?_⟩ <;> simp [handleStreamingResponse, catchTopLevel, h]

theorem streaming_transport_failure_witness :
    (handleStreamingResponse "m" (UpstreamResult.transportError "boom")).status = 200 ∧
    (catchTopLevel Res.fresh "boom").status = 500 :=
  ⟨(streaming_transport_failure "m" "boom" Res.fresh rfl).2.2.1,
   (streaming_transport_failure "m" "boom" Res.fresh rfl).2.2.2.2.1⟩

theorem runUp_snd_notFirst (evs : List UpEvent) :
    ∀ st : StreamState, st.chunk.isFirst = false →
      (runUp st evs).2 = (deliveredTexts evs).map DownEvent.contentChunk := by
  induction evs with
  | nil => intro st h; simp [runUp, deliveredTexts]
  | cons e es ih =>
    intro st h
    cases e with
    | messageStart m it =>
        simp only [runUp]
        rw [ih (stepUp st (UpEvent.messageStart m it)).1 (by simp [stepUp, h])]
        simp [stepUp, deliveredTexts]
    | contentBlockDelta t =>
        cases t with
        | none =>
            simp only [runUp]
            rw [ih (stepUp st (UpEvent.contentBlockDelta none)).1 (by simp [stepUp, h])]
            simp [stepUp, deliveredTexts]
        | some s =>
            by_cases hs : s = ""
            · subst hs
              simp only [runUp]
              rw [ih (stepUp st (UpEvent.contentBlockDelta (some ""))).1 (by simp [stepUp, h])]
              simp [stepUp, deliveredTexts]
            · simp only [runUp]
              rw [ih (stepUp st (UpEvent.contentBlockDelta (some s))).1
                    (by simp [stepUp, hs, onChunk, h])]
              simp [stepUp, deliveredTexts, hs, onChunk, h]
    | messageDelta ot =>
        simp only [runUp]
        rw [ih (stepUp st (UpEvent.messageDelta ot)).1 (by simp [stepUp, h])]
        simp [stepUp, deliveredTexts]
    | otherEvent =>
        simp only [runUp]
        rw [ih (stepUp st UpEvent.otherEvent).1 (by simp [stepUp, h])]
        simp [stepUp, deliveredTexts]

theorem runUp_snd_first (evs : List UpEvent) :
    ∀ st : StreamState, st.chunk.isFirst = true →
      (runUp st evs).2 =
        (match deliveredTexts evs with
         | [] => []
         | d :: ds =>
             DownEvent.roleChunk :: DownEvent.contentChunk d ::
               ds.map DownEvent.contentChunk) := by
  induction evs with
  | nil => intro st h; simp [runUp, deliveredTexts]
  | cons e es ih =>
    intro st h
    cases e with
    | messageStart m it =>
        simp only [runUp]
        rw [ih (stepUp st (UpEvent.messageStart m it)).1 (by simp [stepUp, h])]
        simp [stepUp, deliveredTexts]
    | contentBlockDelta t =>
        cases t with
        | none =>
            simp only [runUp]
            rw [ih (stepUp st (UpEvent.contentBlockDelta none)).1 (by simp [stepUp, h])]
            simp [stepUp, deliveredTexts]
        | some s =>
            by_cases hs : s = ""
            · subst hs
              simp only [runUp]
              rw [ih (stepUp st (UpEvent.contentBlockDelta (some ""))).1 (by simp [stepUp, h])]
              simp [stepUp, deliveredTexts]
            · simp only [runUp]
              rw [runUp_snd_notFirst es (stepUp st (UpEvent.contentBlockDelta (some s))).1
                    (by simp [stepUp, hs, onChunk, h])]
              simp [stepUp, deliveredTexts, hs, onChunk, h]
    | messageDelta ot =>
        simp only [runUp]
        rw [ih (stepUp st (UpEvent.messageDelta ot)).1 (by simp [stepUp, h])]
        simp [stepUp, deliveredTexts]
    | otherEvent =>
        simp only [runUp]
        rw [ih (stepUp st UpEvent.otherEvent).1 (by simp [stepUp, h])]
        simp [stepUp, deliveredTexts]

/-- Counterexample to claim C2 as stated: an upstream event sequence with
no content delta (here the empty sequence) produces no role-announcement
frame at all, not exactly one. -/
theorem role_announcement_counterexample :
    ¬ ((translateStream "m" []).countP isRoleChunk = 1) := by
  decide

/-- Claim C2 amended: the role-announcement frame is emitted at most
once; it is emitted exactly once when at least one content delta is
delivered; it is not emitted at all when no content delta arrives; and
every prefix of the downstream frame sequence that contains a content
frame already contains the role-announcement frame, so the announcement
strictly precedes the first content frame. -/
theorem role_announcement_amended (model : String) (evs : List UpEvent) :
    (translateStream model evs).countP isRoleChunk ≤ 1 ∧
    (deliveredTexts evs ≠ [] → (translateStream model evs).countP isRoleChunk = 1) ∧
    (deliveredTexts evs = [] → (translateStream model evs).countP isRoleChunk = 0) ∧
    (∀ n, ((translateStream model evs).take n).any isContentChunk = true →
      ((translateStream model evs).take n).any isRoleChunk = true) := by
  have hchar := runUp_snd_first evs (initStreamState model) rfl
  rcases hd : deliveredTexts evs with _ | ⟨d, ds⟩
  · have hts : translateStream model evs = [DownEvent.finishChunk, DownEvent.doneMark] := by
      unfold translateStream
      rw [hchar, hd]
      rfl
    refine ⟨?_, ?_, ?_, ?_⟩
    · rw [hts]; decide
    · intro hcontra; exact absurd rfl hcontra
    · intro _; rw [hts]; decide
    · intro n hany
      exfalso
      rw [hts] at hany
      obtain ⟨x, hx, hpx⟩ := List.any_eq_true.mp hany
      have hx2 := List.take_subset n _ hx
      simp at hx2
      rcases hx2 with h1 | h1 <;> subst h1 <;> simp [isContentChunk] at hpx
  · have hts : translateStream model evs =
        DownEvent.roleChunk :: DownEvent.contentChunk d ::
          (ds.map DownEvent.contentChunk ++ [DownEvent.finishChunk, DownEvent.doneMark]) := by
      unfold translateStream
      rw [hchar, hd]
      simp
    have hcount : (translateStream model evs).countP isRoleChunk = 1 := by
      rw [hts]
      simp only [List.countP_cons, List.countP_append, List.countP_map]
      have hmap : (ds.map DownEvent.contentChunk).countP isRoleChunk = 0 := by
        rw [List.countP_eq_zero]
        intro x hx
        obtain ⟨y, _, hy⟩ := List.mem_map.mp hx
        rw [← hy]
        simp [isRoleChunk]
      simp only [List.countP_cons, List.countP_append] at hmap ⊢
      simp [isRoleChunk, hmap]
    refine ⟨le_of_eq hcount, fun _ => hcount,
      fun hcontra => absurd hcontra (List.cons_ne_nil d ds), ?_⟩
    intro n hany
    cases n with
    | zero => simp at hany
    | succ k =>
      rw [hts]
      simp [isRoleChunk]

theorem role_announcement_amended_witness :
    (translateStream "m" [UpEvent.contentBlockDelta (some "hi")]).countP isRoleChunk = 1 :=
  (role_announcement_amended "m" [UpEvent.contentBlockDelta (some "hi")]).2.1 (by decide)

theorem splitNl_ne_nil (l : List Char) : splitNl l ≠ [] := by
  cases l with
  | nil => simp [splitNl]
  | cons c cs =>
    simp only [splitNl]
    by_cases hc : c = '\n'
    · simp [hc]
    · simp only [if_neg hc]
      cases h : splitNl cs <;> simp

theorem splitNl_append_newline : ∀ (x y : List Char),
    splitNl (x ++ '\n' :: y) = splitNl x ++ splitNl y := by
  intro x
  induction x with
  | nil => intro y; simp [splitNl]
  | cons c cs ih =>
    intro y
    by_cases hc : c = '\n'
    · subst hc
      simp [splitNl, List.append_eq, ih]
    · simp only [List.cons_append, splitNl, if_neg hc, List.append_eq, ih]
      cases h : splitNl cs with
      | nil => exact absurd h (splitNl_ne_nil cs)
      | cons a as => simp

theorem not_newline_mem_splitNl : ∀ (x l : List Char), l ∈ splitNl x → '\n' ∉ l := by
  intro x
  induction x with
  | nil =>
    intro l hl
    simp [splitNl] at hl
    subst hl
    simp
  | cons c cs ih =>
    intro l hl
    by_cases hc : c = '\n'
    · subst hc
      simp only [splitNl, if_pos rfl] at hl
      rcases List.mem_cons.mp hl with h | h
      · subst h; simp
      · exact ih l h
    · simp only [splitNl, if_neg hc] at hl
      cases h : splitNl cs with
      | nil => exact absurd h (splitNl_ne_nil cs)
      | cons a as =>
        rw [h] at hl
        rcases List.mem_cons.mp hl with h1 | h1
        · subst h1
          intro hmem
          rcases List.mem_cons.mp hmem with h2 | h2
          · exact hc h2.symm
          · exact ih a (by rw [h]; exact List.mem_cons_self a as) h2
        · exact ih l (by rw [h]; exact List.mem_cons_of_mem a h1)

theorem mem_splitNl_mem : ∀ (x l : List Char), l ∈ splitNl x → ∀ c, c ∈ l → c ∈ x := by
  intro x
  induction x with
  | nil =>
    intro l hl c hc
    simp [splitNl] at hl
    subst hl
    simp at hc
  | cons b cs ih =>
    intro l hl c hc
    by_cases hb : b = '\n'
    · subst hb
      simp only [splitNl, if_pos rfl] at hl
      rcases List.mem_cons.mp hl with h | h
      · subst h; simp at hc
      · exact List.mem_cons_of_mem _ (ih l h c hc)
    · simp only [splitNl, if_neg hb] at hl
      cases h : splitNl cs with
      | nil => exact absurd h (splitNl_ne_nil cs)
      | cons a as =>
        rw [h] at hl
        rcases List.mem_cons.mp hl with h1 | h1
        · subst h1
          rcases List.mem_cons.mp hc with h2 | h2
          · subst h2; exact List.mem_cons_self _ _
          · exact List.mem_cons_of_mem _
              (ih a (by rw [h]; exact List.mem_cons_self a as) c h2)
        · exact List.mem_cons_of_mem _
            (ih l (by rw [h]; exact List.mem_cons_of_mem a h1) c hc)

theorem splitNl_of_no_newline : ∀ (l : List Char), '\n' ∉ l → splitNl l = [l] := by
  intro l
  induction l with
  | nil => intro h; rfl
  | cons c cs ih =>
    intro h
    have hc : ¬ c = '\n' := fun hcontra => h (by rw [hcontra]; exact List.mem_cons_self _ _)
    simp only [splitNl, if_neg hc]
    rw [ih (fun hm => h (List.mem_cons_of_mem c hm))]

theorem all_ws_mem_splitNl (x l : List Char) (hx : x.all isWSChar = true)
    (hl : l ∈ splitNl x) : l.all isWSChar = true := by
  rw [List.all_eq_true] at hx ⊢
  intro c hc
  exact hx c (mem_splitNl_mem x l hl c hc)

theorem trimChars_eq_nil (l : List Char) (h : l.all isWSChar = true) :
    trimChars l = [] := by
  unfold trimChars
  have h1 : l.dropWhile isWSChar = [] := by
    rw [List.dropWhile_eq_nil_iff]
    intro x hx
    exact List.all_eq_true.mp h x hx
  rw [h1]
  rfl

theorem processLine_ws {α : Type} (decode : List Char → Option α)
    (pCD pAM pRM : α → Bool) (l : List Char) (h : l.all isWSChar = true) :
    processLine decode pCD pAM pRM l = [] := by
  unfold processLine
  rw [trimChars_eq_nil l h]
  simp

theorem processLines_append {α : Type} (decode : List Char → Option α)
    (pCD pAM pRM : α → Bool) :
    ∀ (a b : List (List Char)),
      processLines decode pCD pAM pRM (a ++ b) =
        processLines decode pCD pAM pRM a ++ processLines decode pCD pAM pRM b := by
  intro a b
  induction a with
  | nil => simp [processLines]
  | cons l ls ih => simp [processLines, ih]

theorem processLines_eq_nil {α : Type} (decode : List Char → Option α)
    (pCD pAM pRM : α → Bool) :
    ∀ ls : List (List Char), (∀ l ∈ ls, l.all isWSChar = true) →
      processLines decode pCD pAM pRM ls = [] := by
  intro ls
  induction ls with
  | nil => intro _; rfl
  | cons l ls ih =>
    intro h
    simp only [processLines]
    rw [processLine_ws decode pCD pAM pRM l (h l (List.mem_cons_self l ls)),
      ih (fun x hx => h x (List.mem_cons_of_mem l hx))]
    rfl

theorem dropLast_cons_ne {β : Type} (x : β) (l : List β) (h : l ≠ []) :
    (x :: l).dropLast = x :: l.dropLast := by
  cases l with
  | nil => exact absurd rfl h
  | cons z zs => rfl

theorem dropLast_append_ne {β : Type} :
    ∀ (a b : List β), b ≠ [] → (a ++ b).dropLast = a ++ b.dropLast := by
  intro a
  induction a with
  | nil => intro b hb; rfl
  | cons x xs ih =>
    intro b hb
    have hne : xs ++ b ≠ [] := fun hcontra => hb (List.append_eq_nil.mp hcontra).2
    rw [List.cons_append, dropLast_cons_ne x (xs ++ b) hne, ih b hb, List.cons_append]

theorem getLastD_append_ne {β : Type} :
    ∀ (a b : List β) (d : β), b ≠ [] → (a ++ b).getLastD d = b.getLastD d := by
  intro a
  induction a with
  | nil => intro b d hb; rfl
  | cons x xs ih =>
    intro b d hb
    rw [List.cons_append, List.getLastD_cons, ih b x hb]
    cases b with
    | nil => exact absurd rfl hb
    | cons y ys => rw [List.getLastD_cons, List.getLastD_cons]

theorem getLastD_mem {β : Type} :
    ∀ (l : List β) (d : β), l ≠ [] → l.getLastD d ∈ l := by
  intro l
  induction l with
  | nil => intro d h; exact absurd rfl h
  | cons x xs ih =>
    intro d h
    cases xs with
    | nil => simp [List.getLastD]
    | cons y ys =>
      rw [List.getLastD_cons]
      exact List.mem_cons_of_mem x (ih x (by simp))

theorem closeFlush_no_newline {α : Type} (decode : List Char → Option α)
    (pCD pAM pRM : α → Bool) (buf : List Char) (h : '\n' ∉ buf) :
    closeFlush decode pCD pAM pRM buf = [] := by
  unfold closeFlush
  by_cases ht : trimChars buf = []
  · simp [ht]
  · simp only [if_neg ht]
    unfold processBuffer
    rw [splitNl_of_no_newline buf h]
    rfl

theorem runPayload_single {α : Type} (decode : List Char → Option α)
    (pCD pAM pRM : α → Bool) (x : List Char) :
    runPayload decode pCD pAM pRM [x] =
      (feedChunk decode pCD pAM pRM [] x).2 ++
        closeFlush decode pCD pAM pRM (feedChunk decode pCD pAM pRM [] x).1 := by
  simp [runPayload, feedChunks]

theorem runPayload_pair {α : Type} (decode : List Char → Option α)
    (pCD pAM pRM : α → Bool) (x y : List Char) :
    runPayload decode pCD pAM pRM [x, y] =
      (feedChunk decode pCD pAM pRM [] x).2 ++
        ((feedChunk decode pCD pAM pRM (feedChunk decode pCD pAM pRM [] x).1 y).2 ++
          closeFlush decode pCD pAM pRM
            (feedChunk decode pCD pAM pRM (feedChunk decode pCD pAM pRM [] x).1 y).1) := by
  simp [runPayload, feedChunks]
/-- Claim C5: delivering a payload in one chunk and delivering it in two
chunks split exactly at a line boundary (the first chunk ends with a
newline) produce the same event sequence, including the final drain at
process exit. -/
theorem chunk_boundary_invariant {α : Type} (decode : List Char → Option α)
    (pCD pAM pRM : α → Bool) (A B : List Char)
    (h : ∃ A0, A = A0 ++ ['\n']) :
    runPayload decode pCD pAM pRM [A ++ B] = runPayload decode pCD pAM pRM [A, B] := by
  obtain ⟨A0, rfl⟩ := h
  have hSBne : splitNl B ≠ [] := splitNl_ne_nil B
  have hsplitA : splitNl (A0 ++ ['\n']) = splitNl A0 ++ [[]] := by
    have h2 := splitNl_append_newline A0 []
    simpa [splitNl] using h2
  have hflushnil : closeFlush decode pCD pAM pRM [] = [] :=
    closeFlush_no_newline decode pCD pAM pRM [] (by simp)
  have hnlB : '\n' ∉ (splitNl B).getLastD [] :=
    not_newline_mem_splitNl B _ (getLastD_mem (splitNl B) [] hSBne)
  have hflushB : closeFlush decode pCD pAM pRM ((splitNl B).getLastD []) = [] :=
    closeFlush_no_newline decode pCD pAM pRM ((splitNl B).getLastD []) hnlB
  have hallA : (A0 ++ ['\n']).all isWSChar = A0.all isWSChar := by
    rw [List.all_append, show (['\n'].all isWSChar) = true from by decide, Bool.and_true]
  have hallAB : (A0 ++ '\n' :: B).all isWSChar = (A0.all isWSChar && B.all isWSChar) := by
    rw [List.all_append, List.all_cons, show isWSChar '\n' = true from by decide,
      Bool.true_and]
  have hPLA : A0.all isWSChar = true →
      processLines decode pCD pAM pRM (splitNl A0) = [] := by
    intro hA
    apply processLines_eq_nil
    intro l hl
    exact all_ws_mem_splitNl A0 l hA hl
  have hPLBdrop : B.all isWSChar = true →
      processLines decode pCD pAM pRM ((splitNl B).dropLast) = [] := by
    intro hB
    apply processLines_eq_nil
    intro l hl
    exact all_ws_mem_splitNl B l hB (List.dropLast_subset _ hl)
  have hF1 : feedChunk decode pCD pAM pRM [] (A0 ++ ['\n']) =
      ([], processLines decode pCD pAM pRM (splitNl A0)) := by
    unfold feedChunk
    rw [hallA]
    by_cases hA : A0.all isWSChar = true
    · rw [if_pos hA, hPLA hA]
    · rw [Bool.not_eq_true] at hA
      rw [if_neg (by rw [hA]; exact Bool.false_ne_true)]
      simp only [processBuffer, List.nil_append, hsplitA]
      rw [getLastD_append_ne (splitNl A0) [[]] [] (by simp),
        dropLast_append_ne (splitNl A0) [[]] (by simp)]
      simp only [List.dropLast, List.append_nil]
      rfl
  have hfABgen : (A0 ++ '\n' :: B).all isWSChar = false →
      feedChunk decode pCD pAM pRM [] (A0 ++ '\n' :: B) =
        ((splitNl B).getLastD [],
          processLines decode pCD pAM pRM (splitNl A0) ++
            processLines decode pCD pAM pRM ((splitNl B).dropLast)) := by
    intro hf
    unfold feedChunk
    rw [if_neg (by rw [hf]; exact Bool.false_ne_true)]
    simp only [processBuffer, List.nil_append]
    rw [splitNl_append_newline A0 B,
      getLastD_append_ne (splitNl A0) (splitNl B) [] hSBne,
      dropLast_append_ne (splitNl A0) (splitNl B) hSBne,
      processLines_append]
  rw [runPayload_single, runPayload_pair, hF1,
    show (A0 ++ ['\n']) ++ B = A0 ++ '\n' :: B from by simp]
  by_cases hA : A0.all isWSChar = true <;> by_cases hB : B.all isWSChar = true
  · -- both chunks whitespace: everything is skipped
    have hABall : (A0 ++ '\n' :: B).all isWSChar = true := by
      rw [hallAB, hA, hB]
      rfl
    have hfAB : feedChunk decode pCD pAM pRM [] (A0 ++ '\n' :: B) = ([], []) := by
      unfold feedChunk
      rw [if_pos hABall]
    have hfB : feedChunk decode pCD pAM pRM [] B = ([], []) := by
      unfold feedChunk
      rw [if_pos hB]
    simp only [hfAB, hfB, hPLA hA, hflushnil, List.append_nil, List.nil_append]
  · -- second chunk carries the content
    rw [Bool.not_eq_true] at hB
    have hABf : (A0 ++ '\n' :: B).all isWSChar = false := by
      rw [hallAB, hB, Bool.and_false]
    have hfB : feedChunk decode pCD pAM pRM [] B =
        ((splitNl B).getLastD [],
          processLines decode pCD pAM pRM ((splitNl B).dropLast)) := by
      unfold feedChunk
      rw [if_neg (by rw [hB]; exact Bool.false_ne_true)]
      simp only [processBuffer, List.nil_append]
    simp only [hfABgen hABf, hfB, hPLA hA, hflushB, List.append_nil, List.nil_append]
  · -- first chunk carries the content
    rw [Bool.not_eq_true] at hA
    have hABf : (A0 ++ '\n' :: B).all isWSChar = false := by
      rw [hallAB, hA, Bool.false_and]
    have hfB : feedChunk decode pCD pAM pRM [] B = ([], []) := by
      unfold feedChunk
      rw [if_pos hB]
    simp only [hfABgen hABf, hfB, hPLBdrop hB, hflushnil, hflushB,
      List.append_nil, List.nil_append]
  · -- both chunks carry content
    rw [Bool.not_eq_true] at hA hB
    have hABf : (A0 ++ '\n' :: B).all isWSChar = false := by
      rw [hallAB, hA, Bool.false_and]
    have hfB : feedChunk decode pCD pAM pRM [] B =
        ((splitNl B).getLastD [],
          processLines decode pCD pAM pRM ((splitNl B).dropLast)) := by
      unfold feedChunk
      rw [if_neg (by rw [hB]; exact Bool.false_ne_true)]
      simp only [processBuffer, List.nil_append]
    simp only [hfABgen hABf, hfB, hflushB, List.append_nil, List.nil_append]

theorem chunk_boundary_invariant_witness :
    runPayload decodeNone classifyNone classifyNone classifyNone
        [['a', 'b', '\n'] ++ ['c', 'd']] =
      runPayload decodeNone classifyNone classifyNone classifyNone
        [['a', 'b', '\n'], ['c', 'd']] :=
  chunk_boundary_invariant decodeNone classifyNone classifyNone classifyNone
    ['a', 'b', '\n'] ['c', 'd'] ⟨['a', 'b'], by decide⟩

/-- Counterexample to claim C6 as stated: a whitespace-only line is not
valid JSON (the decoder rejects it), yet it yields no raw-unparsed event
at all, because the line is trimmed and an empty trimmed line is skipped
before decoding. -/
theorem raw_event_counterexample :
    decodeNone (trimChars [' ']) = none ∧
    processLine decodeNone classifyNone classifyNone classifyNone [' '] = [] := by
  constructor
  · rfl
  · decide

/-- Claim C6 amended: a complete line whose trimmed text is non-empty and
fails to decode yields exactly one raw event, carrying the trimmed line
text rather than the original line text; every line that trims to
nothing is skipped without any event; and line processing is
compositional, so parsing resumes unaffected on the following lines. -/
theorem raw_event_on_decode_failure {α : Type} (decode : List Char → Option α)
    (pCD pAM pRM : α → Bool) (line : List Char)
    (h1 : trimChars line ≠ []) (h2 : decode (trimChars line) = none) :
    processLine decode pCD pAM pRM line = [SubEvent.raw (trimChars line)] ∧
    (∀ l : List Char, trimChars l = [] → processLine decode pCD pAM pRM l = []) ∧
    (∀ rest : List (List Char),
      processLines decode pCD pAM pRM (line :: rest) =
        SubEvent.raw (trimChars line) :: processLines decode pCD pAM pRM rest) := by
  have hp : processLine decode pCD pAM pRM line = [SubEvent.raw (trimChars line)] := by
    simp only [processLine]
    rw [if_neg h1, h2]
  refine ⟨hp, ?_, fun rest => by simp [processLines, hp]⟩
  intro l hl
  simp only [processLine]
  rw [if_pos hl]

theorem raw_event_on_decode_failure_witness :
    processLine decodeNone classifyNone classifyNone classifyNone ['x'] =
      [SubEvent.raw (trimChars ['x'])] :=
  (raw_event_on_decode_failure decodeNone classifyNone classifyNone classifyNone
    ['x'] (by decide) rfl).1
